import Mathlib

/-!
Verification of the guest-lock-manager PIN lifecycle engine.

Shallow embedding of the Go sources:
  backend/internal/pin/schedule.go        (static schedule evaluator)
  backend/internal/pin (generator.go)     (PIN derivation strategy chain)
  backend/internal/pin (conflicts.go)     (conflict checker / alternative PINs)
  backend/internal/lock/manager.go        (batched lock writer)
  backend/internal/calendar/sync.go       (calendar sync pipeline)
  backend/internal/storage (guest_pin repository, FindConflicts SQL)
  backend/internal/pin (static_scheduler.go) (static PIN scheduler)

Go strings are modelled as `List Char` (all relevant data is ASCII, so
byte-wise Go string comparison coincides with `Char`-wise comparison);
machine integers as `Nat`/`Int`; maps as association lists or flattened
lists where iteration order is irrelevant to the stated properties.
-/

namespace GLM

/-- Decides whether a character is an ASCII decimal digit, mirroring the
Go checks of the form `c < '0' || c > '9'` (negated). -/
def isDigitCh (c : Char) : Bool :=
  decide ('0'.toNat ≤ c.toNat) && decide (c.toNat ≤ '9'.toNat)

/-- Go `regexp` Perl class `\s`, i.e. one of tab, newline, form feed,
carriage return, space (vertical tab is not included in RE2's `\s`). -/
def isSpaceCh (c : Char) : Bool :=
  c = ' ' || c = '\t' || c = '\n' || c = '\x0c' || c = '\r'

/-- Byte-wise lexicographic `<` on Go strings (SQLite BINARY collation
agrees with this on the ASCII texts used here). -/
def goStrLt : List Char → List Char → Bool
  | [], [] => false
  | [], _ :: _ => true
  | _ :: _, [] => false
  | a :: as, b :: bs =>
    if a.toNat < b.toNat then true
    else if b.toNat < a.toNat then false
    else goStrLt as bs

/-- Go string `a >= b`. -/
def goStrGeB (a b : List Char) : Bool := !goStrLt a b

/-- Go string `a <= b`. -/
def goStrLeB (a b : List Char) : Bool := !goStrLt b a

/-- Go `pow10` (pin/generator.go): returns `10^n` by repeated multiplication. -/
def pow10 : Nat → Nat
  | 0 => 1
  | n + 1 => 10 * pow10 n

/-- The decimal digit character for `n % 10`. -/
def digitCh (n : Nat) : Char := Char.ofNat ('0'.toNat + n % 10)

/-- Fuel-driven helper for `natToDigits` (structural recursion keeps it
kernel-reducible). -/
def natToDigitsAux : Nat → Nat → List Char
  | 0, _ => []
  | fuel + 1, n =>
    if n < 10 then [digitCh n]
    else natToDigitsAux fuel (n / 10) ++ [digitCh n]

/-- Decimal digit characters of a natural number, most significant first
(as Go `fmt` prints a non-negative integer). -/
def natToDigits (n : Nat) : List Char := natToDigitsAux (n + 1) n

/-- Go `fmt.Sprintf("%0*d", w, n)` for a non-negative value: decimal
digits left-padded with zeros to width `w` (wider values print in full). -/
def natPad (w n : Nat) : List Char :=
  List.replicate (w - (natToDigits n).length) '0' ++ natToDigits n

/-- Model of `models.StaticPINSchedule` (storage/models): a day-of-week
bucket with `"HH:MM"` start and end times. -/
structure StaticPINSchedule where
  dayOfWeek : Int
  startTime : List Char
  endTime : List Char
deriving DecidableEq, Repr

/-- Model of `ScheduleEvaluator.isScheduleActive` (backend/internal/pin/schedule.go):
day-of-week must match; an overnight window (start > end) is active when
`currentTime >= start || currentTime <= end`, a normal window when
`start <= currentTime && currentTime <= end`, comparing "HH:MM" strings
lexicographically. -/
def isScheduleActive (schedule : StaticPINSchedule) (weekday : Int)
    (currentTime : List Char) : Bool :=
  if schedule.dayOfWeek ≠ weekday then false
  else if goStrLt schedule.endTime schedule.startTime then
    goStrGeB currentTime schedule.startTime || goStrLeB currentTime schedule.endTime
  else
    goStrGeB currentTime schedule.startTime && goStrLeB currentTime schedule.endTime

/-! ### PIN generator (backend/internal/pin, generator source file)

`crypto/sha256` is embedded in full so that `generateFromDescription`
is the actual source computation, not a stub. -/

/-- UTF-8 encoding of one character (Go strings are UTF-8 byte slices). -/
def charUtf8 (c : Char) : List Nat :=
  let n := c.toNat
  if n < 0x80 then [n]
  else if n < 0x800 then
    [0xC0 + n / 0x40, 0x80 + n % 0x40]
  else if n < 0x10000 then
    [0xE0 + n / 0x1000, 0x80 + n / 0x40 % 0x40, 0x80 + n % 0x40]
  else
    [0xF0 + n / 0x40000, 0x80 + n / 0x1000 % 0x40, 0x80 + n / 0x40 % 0x40,
      0x80 + n % 0x40]

/-- Bytes of a Go string. -/
def strBytes (s : List Char) : List Nat := List.flatten (s.map charUtf8)

/-- Addition modulo `2^32`. -/
def add32 (a b : Nat) : Nat := (a + b) % 4294967296

/-- Rotate a 32-bit word right by `n` bits. -/
def rotr32 (n x : Nat) : Nat := x / 2 ^ n + x % 2 ^ n * 2 ^ (32 - n)

/-- Shift a 32-bit word right by `n` bits. -/
def shr32 (n x : Nat) : Nat := x / 2 ^ n

/-- Bitwise complement of a 32-bit word. -/
def not32 (x : Nat) : Nat := 4294967295 - x

/-- SHA-256 `Ch(x, y, z)`. -/
def sha2Ch (x y z : Nat) : Nat := (x &&& y) ^^^ (not32 x &&& z)

/-- SHA-256 `Maj(x, y, z)`. -/
def sha2Maj (x y z : Nat) : Nat := (x &&& y) ^^^ (x &&& z) ^^^ (y &&& z)

/-- SHA-256 `Σ0`. -/
def bigSigma0 (x : Nat) : Nat := rotr32 2 x ^^^ rotr32 13 x ^^^ rotr32 22 x

/-- SHA-256 `Σ1`. -/
def bigSigma1 (x : Nat) : Nat := rotr32 6 x ^^^ rotr32 11 x ^^^ rotr32 25 x

/-- SHA-256 `σ0`. -/
def smallSigma0 (x : Nat) : Nat := rotr32 7 x ^^^ rotr32 18 x ^^^ shr32 3 x

/-- SHA-256 `σ1`. -/
def smallSigma1 (x : Nat) : Nat := rotr32 17 x ^^^ rotr32 19 x ^^^ shr32 10 x

/-- SHA-256 round constants. -/
def sha2K : List Nat :=
  [1116352408, 1899447441, 3049323471, 3921009573,
   961987163, 1508970993, 2453635748, 2870763221,
   3624381080, 310598401, 607225278, 1426881987,
   1925078388, 2162078206, 2614888103, 3248222580,
   3835390401, 4022224774, 264347078, 604807628,
   770255983, 1249150122, 1555081692, 1996064986,
   2554220882, 2821834349, 2952996808, 3210313671,
   3336571891, 3584528711, 113926993, 338241895,
   666307205, 773529912, 1294757372, 1396182291,
   1695183700, 1986661051, 2177026350, 2456956037,
   2730485921, 2820302411, 3259730800, 3345764771,
   3516065817, 3600352804, 4094571909, 275423344,
   430227734, 506948616, 659060556, 883997877,
   958139571, 1322822218, 1537002063, 1747873779,
   1955562222, 2024104815, 2227730452, 2361852424,
   2428436474, 2756734187, 3204031479, 3329325298]

/-- SHA-256 initial hash state. -/
def sha2H0 : List Nat :=
  [1779033703, 3144134277, 1013904242, 2773480762,
   1359893119, 2600822924, 528734635, 1541459225]

/-- Big-endian bytes of a number, fixed width `k`. -/
def natBytesBE : Nat → Nat → List Nat
  | 0, _ => []
  | k + 1, n => natBytesBE k (n / 256) ++ [n % 256]

/-- Group bytes into big-endian 32-bit words. -/
def bytesToWords : List Nat → List Nat
  | b0 :: b1 :: b2 :: b3 :: rest =>
    (b0 * 0x1000000 + b1 * 0x10000 + b2 * 0x100 + b3) :: bytesToWords rest
  | _ => []

/-- Extend the 16-word message schedule by `k` more words. -/
def extendSchedule : Nat → List Nat → List Nat
  | 0, w => w
  | k + 1, w =>
    let t := w.length
    let nw := add32
      (add32 (smallSigma1 (w.getD (t - 2) 0)) (w.getD (t - 7) 0))
      (add32 (smallSigma0 (w.getD (t - 15) 0)) (w.getD (t - 16) 0))
    extendSchedule k (w ++ [nw])

/-- One SHA-256 compression round on the working state `[a,b,c,d,e,f,g,h]`. -/
def sha2Round (st : List Nat) (w k : Nat) : List Nat :=
  match st with
  | [a, b, c, d, e, f, g, h] =>
    let t1 := add32 (add32 (add32 h (bigSigma1 e)) (add32 (sha2Ch e f g) k)) w
    let t2 := add32 (bigSigma0 a) (sha2Maj a b c)
    [add32 t1 t2, a, b, c, add32 d t1, e, f, g]
  | other => other

/-- Process one 64-byte block. -/
def sha2Block (h : List Nat) (block : List Nat) : List Nat :=
  let w := extendSchedule 48 (bytesToWords block)
  let st := (w.zip sha2K).foldl (fun st wk => sha2Round st wk.1 wk.2) h
  (h.zip st).map fun p => add32 p.1 p.2

/-- SHA-256 message padding: `0x80`, zeros, then the 64-bit big-endian
bit length, to a multiple of 64 bytes. -/
def sha2Pad (msg : List Nat) : List Nat :=
  let l := msg.length
  let zeros := (64 + 56 - (l + 1) % 64) % 64
  msg ++ [0x80] ++ List.replicate zeros 0 ++ natBytesBE 8 (l * 8 % 2 ^ 64)

/-- Split into 64-byte chunks. -/
def chunks64 (l : List Nat) : List (List Nat) :=
  if h : l = [] then []
  else l.take 64 :: chunks64 (l.drop 64)
termination_by l.length
decreasing_by
  have hp : 0 < l.length := List.length_pos.mpr h
  simp only [List.length_drop]
  omega

/-- Model of Go `sha256.Sum256`: the 32-byte SHA-256 digest. -/
def sha256sum (msg : List Nat) : List Nat :=
  let hs := (chunks64 (sha2Pad msg)).foldl sha2Block sha2H0
  List.flatten (hs.map (natBytesBE 4))

/-- Model of `models.CalendarEvent` (storage/models): timestamps are UTC
wall-clock tuples (the Go pipeline parses all iCal dates into UTC). -/
structure DateTime where
  year : Nat
  month : Nat
  day : Nat
  hour : Nat
  minute : Nat
  second : Nat
deriving DecidableEq, Repr

/-- Chronological order on the UTC wall-clock model of `time.Time`
(`Before`/`After` in Go). -/
def dtLt (a b : DateTime) : Bool :=
  if a.year ≠ b.year then a.year < b.year
  else if a.month ≠ b.month then a.month < b.month
  else if a.day ≠ b.day then a.day < b.day
  else if a.hour ≠ b.hour then a.hour < b.hour
  else if a.minute ≠ b.minute then a.minute < b.minute
  else a.second < b.second

/-- Model of `models.CalendarEvent`. -/
structure CalendarEvent where
  uid : List Char
  summary : List Char
  description : List Char
  dtStart : DateTime
  dtEnd : DateTime
deriving DecidableEq, Repr

/-- Model of `pin.Generator`: configured minimum and maximum PIN length. -/
structure Generator where
  minLength : Nat
  maxLength : Nat
deriving DecidableEq, Repr

/-- Model of `pin.NewGenerator`: clamps `minLength` up to 4, `maxLength`
up to `minLength` and down to 8. -/
def newGenerator (minLength maxLength : Int) : Generator :=
  let minL := if minLength < 4 then 4 else minLength
  let maxL := if maxLength < minL then minL else maxLength
  let maxL := if maxL > 8 then 8 else maxL
  ⟨minL.toNat, maxL.toNat⟩

/-- Model of `pin.GenerationResult`. -/
structure GenerationResult where
  pinCode : List Char
  method : String
  success : Bool
deriving DecidableEq, Repr

/-- Generation method constant `models.GenerationMethodCustom`. -/
def genMethodCustom : String := "custom"

/-- Generation method constant `models.GenerationMethodPhoneLast4`. -/
def genMethodPhoneLast4 : String := "phone_last4"

/-- Generation method constant `models.GenerationMethodDescriptionRandom`. -/
def genMethodDescriptionRandom : String := "description_random"

/-- Generation method constant `models.GenerationMethodDateBased`. -/
def genMethodDateBased : String := "date_based"

/-- If the first four characters are digits return them, else nothing:
the `(\d{4})` capture group following the whitespace run. -/
def take4Digits : List Char → Option (List Char)
  | a :: b :: c :: d :: _ =>
    if isDigitCh a && isDigitCh b && isDigitCh c && isDigitCh d then
      some [a, b, c, d]
    else none
  | _ => none

/-- Try the regex `lit\s*(\d{4})` anchored at the start of `s`
(`lit` being a literal string). -/
def matchLitSpDigits (lit s : List Char) : Option (List Char) :=
  if lit.isPrefixOf s then
    take4Digits ((s.drop lit.length).dropWhile isSpaceCh)
  else none

/-- Leftmost match of the regex `lit\s*(\d{4})` inside `s`, returning
the captured four digits: Go `regexp.FindStringSubmatch` for the fixed
patterns of `extractPhoneLast4`, whose shape is a literal followed by
`\s*(\d{4})`. -/
def findLitSpDigits (lit : List Char) : List Char → Option (List Char)
  | [] => matchLitSpDigits lit []
  | a :: t =>
    match matchLitSpDigits lit (a :: t) with
    | some d => some d
    | none => findLitSpDigits lit t

/-- Model of `Generator.extractPhoneLast4`: tries the four fixed patterns
in order and returns the first captured 4-digit group, or `""`. -/
def extractPhoneLast4 (description : List Char) : List Char :=
  match findLitSpDigits "(Last 4 Digits):".toList description with
  | some d => d
  | none =>
  match findLitSpDigits "Last 4 Digits:".toList description with
  | some d => d
  | none =>
  match findLitSpDigits "last 4 digits:".toList description with
  | some d => d
  | none =>
  match findLitSpDigits "(last 4 digits):".toList description with
  | some d => d
  | none => []

/-- Model of `Generator.generateFromDescription`: SHA-256 of
`description + "|" + uid`, first 4 bytes big-endian, reduced modulo
`10^minLength` and zero-padded to `minLength` digits. -/
def generateFromDescription (g : Generator) (description uid : List Char) :
    List Char :=
  let data := description ++ "|".toList ++ uid
  let hash := sha256sum (strBytes data)
  let num := hash.getD 0 0 * 0x1000000 + hash.getD 1 0 * 0x10000 +
    hash.getD 2 0 * 0x100 + hash.getD 3 0
  natPad g.minLength (num % pow10 g.minLength)

/-- Model of `Generator.generateFromDates`: `"%02d%02d"` of the check-in
and check-out days, with `"%02d"` of the check-in month prepended when
`minLength > 4`; left-padded with zeros to `minLength` and truncated to
`maxLength`. -/
def generateFromDates (g : Generator) (checkIn checkOut : DateTime) :
    List Char :=
  let inDay := checkIn.day
  let outDay := checkOut.day
  let pin := natPad 2 inDay ++ natPad 2 outDay
  let pin :=
    if 4 < g.minLength then natPad 2 checkIn.month ++ natPad 2 inDay ++ natPad 2 outDay
    else pin
  let pin := List.replicate (g.minLength - pin.length) '0' ++ pin
  if g.maxLength < pin.length then pin.take g.maxLength else pin

/-- The pad/truncate step of the date-based strategy as the spec words
it (§4.3 step 4): left-pad with zeros to `minLength`, then truncate to
`maxLength`. -/
def padTruncate (g : Generator) (pin : List Char) : List Char :=
  let padded := List.replicate (g.minLength - pin.length) '0' ++ pin
  if g.maxLength < padded.length then padded.take g.maxLength else padded

/-- Model of `Generator.isValidPIN`: length within `[minLength, maxLength]`
and digits only. -/
def isValidPIN (g : Generator) (pin : List Char) : Bool :=
  decide (g.minLength ≤ pin.length) && decide (pin.length ≤ g.maxLength) &&
    pin.all isDigitCh

/-- Model of `Generator.GenerateFromEvent`: the ordered strategy chain
custom → phone last-4 → description hash → date-based, first success wins;
a non-empty but invalid custom PIN falls through silently. -/
def generateFromEvent (g : Generator) (event : CalendarEvent)
    (customPIN : List Char) : GenerationResult :=
  if customPIN ≠ [] && isValidPIN g customPIN then
    ⟨customPIN, genMethodCustom, true⟩
  else if extractPhoneLast4 event.description ≠ [] then
    ⟨extractPhoneLast4 event.description, genMethodPhoneLast4, true⟩
  else if event.description ≠ [] then
    ⟨generateFromDescription g event.description event.uid, genMethodDescriptionRandom, true⟩
  else
    ⟨generateFromDates g event.dtStart event.dtEnd, genMethodDateBased, true⟩

/-! ### Guest PIN store rows and the conflict checker
(backend/internal/pin conflict source file and the storage repository's
`FindConflicts` query). -/

/-- Model of `models.GuestPIN` (storage/models). -/
structure GuestPIN where
  id : String
  calendarID : String
  eventUID : List Char
  eventSummary : Option (List Char)
  pinCode : List Char
  generationMethod : String
  validFrom : DateTime
  validUntil : DateTime
  status : String
  regenerationEligible : Bool
deriving DecidableEq, Repr

/-- Go `time.Time.Format(time.RFC3339)` for a UTC instant with whole
seconds: `"YYYY-MM-DDTHH:MM:SSZ"`. -/
def rfc3339 (t : DateTime) : List Char :=
  natPad 4 t.year ++ "-".toList ++ natPad 2 t.month ++ "-".toList ++
    natPad 2 t.day ++ "T".toList ++ natPad 2 t.hour ++ ":".toList ++
    natPad 2 t.minute ++ ":".toList ++ natPad 2 t.second ++ "Z".toList

/-- The TEXT value the pinned SQLite driver (mattn/go-sqlite3 v1.14)
stores when a `time.Time` is bound as a query argument, layout
`"2006-01-02 15:04:05.999999999-07:00"`: for the engine's UTC,
zero-nanosecond instants this is `"YYYY-MM-DD HH:MM:SS+00:00"`.
The `guest_pins.valid_from/valid_until` DATETIME columns hold this text,
and SQLite compares TEXT with BINARY (byte-wise) collation. -/
def sqliteTimeText (t : DateTime) : List Char :=
  natPad 4 t.year ++ "-".toList ++ natPad 2 t.month ++ "-".toList ++
    natPad 2 t.day ++ " ".toList ++ natPad 2 t.hour ++ ":".toList ++
    natPad 2 t.minute ++ ":".toList ++ natPad 2 t.second ++ "+00:00".toList

/-- Model of `GuestPINRepository.FindConflicts` (storage): the SQL filter
`pin_code = ? AND id != ? AND valid_from < ?(validUntil) AND
valid_until > ?(validFrom) AND status NOT IN ('expired','conflict')`,
where the date comparisons are byte-wise TEXT comparisons between the
stored column text and the caller-supplied strings. -/
def findConflicts (rows : List GuestPIN) (pinCode : List Char)
    (validFrom validUntil : List Char) (excludeID : String) : List GuestPIN :=
  rows.filter fun r =>
    r.pinCode = pinCode && r.id ≠ excludeID &&
      goStrLt (sqliteTimeText r.validFrom) validUntil &&
      goStrLt validFrom (sqliteTimeText r.validUntil) &&
      r.status ≠ "expired" && r.status ≠ "conflict"

/-- Model of `pin.Conflict`. -/
structure Conflict where
  pinCode : List Char
  conflictingPIN : String
  eventSummary : List Char
  overlapStart : DateTime
  overlapEnd : DateTime
deriving DecidableEq, Repr

/-- Model of `ConflictChecker.CheckConflicts`: formats the window as
RFC3339 strings, queries `FindConflicts`, and reports one `Conflict`
per returned PIN with the computed overlap period. -/
def checkConflicts (rows : List GuestPIN) (pinCode : List Char)
    (validFrom validUntil : DateTime) (excludeID : String) : List Conflict :=
  let conflicting :=
    findConflicts rows pinCode (rfc3339 validFrom) (rfc3339 validUntil) excludeID
  conflicting.map fun p =>
    let overlapStart := if dtLt validFrom p.validFrom then p.validFrom else validFrom
    let overlapEnd := if dtLt p.validUntil validUntil then p.validUntil else validUntil
    ⟨pinCode, p.id, p.eventSummary.getD [], overlapStart, overlapEnd⟩

/-- Model of `ConflictChecker.HasConflict`: true when `CheckConflicts`
reports at least one conflict. -/
def hasConflict (rows : List GuestPIN) (pinCode : List Char)
    (validFrom validUntil : DateTime) (excludeID : String) : Bool :=
  0 < (checkConflicts rows pinCode validFrom validUntil excludeID).length

/-- The spec's overlap test between windows `a` and `b`:
`a.from < b.until ∧ a.until > b.from` on timestamps.
Modelled from the spec (§4.3 conflict detection). -/
def specOverlap (aFrom aUntil bFrom bUntil : DateTime) : Bool :=
  dtLt aFrom bUntil && dtLt bFrom aUntil

/-- Go integer interpretation of a PIN string as in `incrementPIN`:
`num = num*10 + int(c - '0')` over the characters. -/
def goStrToInt (pin : List Char) : Int :=
  pin.foldl (fun n c => n * 10 + ((c.toNat : Int) - 48)) 0

/-- Go `fmt.Sprintf("%0*d", w, v)`: zero-padded to width `w`, with the
sign counted in the width for negative values. -/
def sprintfPad0 (w : Nat) (v : Int) : List Char :=
  if v < 0 then '-' :: natPad (w - 1) v.natAbs else natPad w v.natAbs

/-- Model of `incrementPIN` (pin conflict source file): adds `increment`
to the integer interpretation and reformats modulo `10^len` to the same
length (`%` is Go's truncated modulus). -/
def incrementPIN (pin : List Char) (increment : Int) : List Char :=
  let num := goStrToInt pin + increment
  sprintfPad0 pin.length (Int.tmod num (pow10 pin.length))

/-- The candidate built by attempt `i` of `FindAlternativePIN`:
`incrementPIN original (i+1)`, keeping only the last `pinLen` characters
when longer. -/
def altCandidate (originalPIN : List Char) (pinLen : Nat) (i : Nat) :
    List Char :=
  let modified := incrementPIN originalPIN ((i : Int) + 1)
  if pinLen < modified.length then modified.drop (modified.length - pinLen)
  else modified

/-- The candidate-testing loop of `FindAlternativePIN`: returns the
first candidate without a conflict, `none` when the attempts run out. -/
def findAltLoop (rows : List GuestPIN) (validFrom validUntil : DateTime)
    (originalPIN : List Char) (pinLen : Nat) : Nat → Nat → Option (List Char)
  | _, 0 => none
  | i, fuel + 1 =>
    if hasConflict rows (altCandidate originalPIN pinLen i) validFrom validUntil "" then
      findAltLoop rows validFrom validUntil originalPIN pinLen (i + 1) fuel
    else some (altCandidate originalPIN pinLen i)

/-- Model of `ConflictChecker.FindAlternativePIN`: `maxAttempts`
defaults to 10 when non-positive; `pinLen` is the original length
clamped up to 4; returns `none` when every attempt conflicts. -/
def findAlternativePIN (rows : List GuestPIN) (originalPIN : List Char)
    (validFrom validUntil : DateTime) (maxAttempts : Int) : Option (List Char) :=
  let maxA := if maxAttempts ≤ 0 then 10 else maxAttempts
  let pinLen := if originalPIN.length < 4 then 4 else originalPIN.length
  findAltLoop rows validFrom validUntil originalPIN pinLen 0 maxA.toNat

/-! ### Lock writer (backend/internal/lock/manager.go)

The Go manager keeps `pendingOps` as a map from lock id to a slice of
operations and appends in `queueOperation`; `flushBatch` iterates the
map and executes each lock's slice in order. The map is modelled as the
flattened list of queued operations (per-lock order is preserved;
cross-lock interleaving is not fixed by the source and is irrelevant to
the per-(lock, slot) properties stated here). -/

/-- Model of `lock.PINOperation`. -/
structure PINOperation where
  lockID : String
  pinCode : List Char
  slotNumber : Int
  operation : String
  guestPINID : String
deriving DecidableEq, Repr

/-- Model of `Manager.queueOperation`: appends the operation to the
lock's pending queue. -/
def queueOperation (pendingOps : List PINOperation) (op : PINOperation) :
    List PINOperation :=
  pendingOps ++ [op]

/-- Model of `Manager.SetPIN`: queues a `"set"` operation. -/
def setPIN (pendingOps : List PINOperation) (lockID : String)
    (pinCode : List Char) (slotNumber : Int) (guestPINID : String) :
    List PINOperation :=
  queueOperation pendingOps ⟨lockID, pinCode, slotNumber, "set", guestPINID⟩

/-- Model of `Manager.ClearPIN`: queues a `"clear"` operation. -/
def clearPIN (pendingOps : List PINOperation) (lockID : String)
    (slotNumber : Int) (guestPINID : String) : List PINOperation :=
  queueOperation pendingOps ⟨lockID, [], slotNumber, "clear", guestPINID⟩

/-- One write attempt against the wire (a set or clear issued to the
selected writer chain for a lock). -/
structure WireAttempt where
  lockID : String
  slotNumber : Int
  operation : String
  pinCode : List Char
deriving DecidableEq, Repr

/-- Model of the wire effect of `Manager.flushBatch`: the drained queue
is executed one write attempt per queued operation, in queue order for
each lock (a fallback retry after a failed primary belongs to the same
attempt). No deduplication is performed. -/
def flushWireAttempts (pendingOps : List PINOperation) : List WireAttempt :=
  pendingOps.map fun op => ⟨op.lockID, op.slotNumber, op.operation, op.pinCode⟩

/-! ### Static PIN scheduler (backend/internal/pin static scheduler file) -/

/-- Model of `models.StaticPINLock`. -/
structure StaticPINLock where
  staticPINID : String
  lockID : String
  slotNumber : Int
  syncStatus : String
deriving DecidableEq, Repr

/-- In-memory state of `StaticPINScheduler`: the `pinStates` map
(pinID → isActiveOnLock, reads default to `false` like a Go map) and
the persisted `static_pin_locks` rows. -/
structure SchedState where
  pinStates : List (String × Bool)
  assignments : List StaticPINLock
deriving DecidableEq, Repr

/-- Model of `StaticPINScheduler.getPinState`. -/
def getPinState (st : SchedState) (pinID : String) : Bool :=
  (st.pinStates.lookup pinID).getD false

/-- Model of `StaticPINScheduler.setPinState` (newest entry wins). -/
def setPinState (st : SchedState) (pinID : String) (active : Bool) : SchedState :=
  { st with pinStates := (pinID, active) :: st.pinStates }

/-- Model of `StaticPINRepository.UpdateLockSyncStatus`. -/
def updateStaticLockSyncStatus (assignments : List StaticPINLock)
    (pinID lockID status : String) : List StaticPINLock :=
  assignments.map fun a =>
    if a.staticPINID = pinID && a.lockID = lockID then
      { a with syncStatus := status }
    else a

/-- Model of `StaticPINScheduler.activatePin`, parameterised by the
outcome `writeOk` of each `lockManager.SetStaticPIN` call: per
assignment, a failed write records sync status `failed` and a
successful one records `synced`; afterwards `pinStates[pinID]` is set
to `true` unconditionally. -/
def activatePin (writeOk : StaticPINLock → Bool) (st : SchedState)
    (pinID : String) : SchedState :=
  let asgs := st.assignments.filter fun a => a.staticPINID = pinID
  let st := asgs.foldl
    (fun acc a =>
      if writeOk a then
        { acc with assignments :=
            updateStaticLockSyncStatus acc.assignments pinID a.lockID "synced" }
      else
        { acc with assignments :=
            updateStaticLockSyncStatus acc.assignments pinID a.lockID "failed" })
    st
  setPinState st pinID true

/-- Model of `StaticPINScheduler.deactivatePin`: per assignment, a
failed `ClearStaticPIN` leaves the row untouched and a successful one
records sync status `pending`; afterwards `pinStates[pinID]` is set to
`false` unconditionally. -/
def deactivatePin (writeOk : StaticPINLock → Bool) (st : SchedState)
    (pinID : String) : SchedState :=
  let asgs := st.assignments.filter fun a => a.staticPINID = pinID
  let st := asgs.foldl
    (fun acc a =>
      if writeOk a then
        { acc with assignments :=
            updateStaticLockSyncStatus acc.assignments pinID a.lockID "pending" }
      else acc)
    st
  setPinState st pinID false

/-- The action `evaluateSchedules` takes for one PIN on one tick. -/
inductive SchedAction where
  | activate
  | deactivate
  | idle
deriving DecidableEq, Repr

/-- The per-PIN body of `StaticPINScheduler.evaluateSchedules`:
activate on a rising edge, deactivate on a falling edge, otherwise do
nothing. Returns the new state and which action was taken. -/
def pinTick (writeOk : StaticPINLock → Bool) (st : SchedState)
    (pinID : String) (shouldBeActive : Bool) : SchedState × SchedAction :=
  let wasActive := getPinState st pinID
  if shouldBeActive && !wasActive then (activatePin writeOk st pinID, .activate)
  else if !shouldBeActive && wasActive then
    (deactivatePin writeOk st pinID, .deactivate)
  else (st, .idle)

/-! ### Calendar sync pipeline (backend/internal/calendar/sync.go) -/

/-- Model of `models.GuestPINLock`. -/
structure GuestPINLockRow where
  guestPINID : String
  lockID : String
  slotNumber : Int
  syncStatus : String
deriving DecidableEq, Repr

/-- The guest PIN rows and assignment rows touched by the sync pipeline. -/
structure SyncStore where
  pins : List GuestPIN
  assignments : List GuestPINLockRow
deriving DecidableEq, Repr

/-- Model of `GuestPINRepository.AssignToLock`: upsert on
`(guest_pin_id, lock_id)`, setting the slot and sync status `pending`. -/
def assignToLock (assignments : List GuestPINLockRow)
    (guestPINID lockID : String) (slotNumber : Int) : List GuestPINLockRow :=
  if assignments.any fun a => a.guestPINID = guestPINID && a.lockID = lockID then
    assignments.map fun a =>
      if a.guestPINID = guestPINID && a.lockID = lockID then
        { a with slotNumber := slotNumber, syncStatus := "pending" }
      else a
  else assignments ++ [⟨guestPINID, lockID, slotNumber, "pending"⟩]

/-- The lock-assignment loop of `SyncService.processEvent`
(sync.go lines 179-186): `slotNumber` starts at 1
(`// TODO: Implement slot allocation`) and is incremented once per
mapped lock, with no occupancy scan. -/
def assignSlotsLoop (assignments : List GuestPINLockRow) (guestPINID : String)
    (lockIDs : List String) (slotNumber : Int) : List GuestPINLockRow :=
  match lockIDs with
  | [] => assignments
  | l :: rest =>
    assignSlotsLoop (assignToLock assignments guestPINID l slotNumber)
      guestPINID rest (slotNumber + 1)

/-- Model of `SyncService.applyCheckinTime`: replaces the time of day
with the configured check-in hour and minute. -/
def applyCheckinTime (checkin : Nat × Nat) (date : DateTime) : DateTime :=
  { date with hour := checkin.1, minute := checkin.2, second := 0 }

/-- Model of `SyncService.applyCheckoutTime`. -/
def applyCheckoutTime (checkout : Nat × Nat) (date : DateTime) : DateTime :=
  { date with hour := checkout.1, minute := checkout.2, second := 0 }

/-- Model of `GuestPIN.IsActive`: `now` strictly inside the window. -/
def guestPINIsActive (validFrom validUntil now : DateTime) : Bool :=
  dtLt validFrom now && dtLt now validUntil

/-- The create branch of `SyncService.processEvent` (no existing PIN for
the event): derive the PIN with no custom code, create the GuestPIN with
status pending (or active when `now` lies inside the window), and assign
it to each mapped lock through the slot loop. -/
def processEventCreate (store : SyncStore) (now : DateTime)
    (checkin checkout : Nat × Nat) (g : Generator) (calendarID pinID : String)
    (event : CalendarEvent) (lockIDs : List String) : SyncStore :=
  let validFrom := applyCheckinTime checkin event.dtStart
  let validUntil := applyCheckoutTime checkout event.dtEnd
  let result := generateFromEvent g event []
  let status :=
    if guestPINIsActive validFrom validUntil now then "active" else "pending"
  let pin : GuestPIN :=
    ⟨pinID, calendarID, event.uid, some event.summary, result.pinCode,
      result.method, validFrom, validUntil, status, true⟩
  ⟨store.pins ++ [pin], assignSlotsLoop store.assignments pinID lockIDs 1⟩

/-- Whether the parent guest PIN of an assignment is currently
non-expired in the store. -/
def pinNonExpired (pins : List GuestPIN) (pinID : String) : Bool :=
  pins.any fun p => p.id = pinID && p.status ≠ "expired"

/-- No two rows in the list occupy the same slot on the same lock. -/
def slotsDistinct : List GuestPINLockRow → Bool
  | [] => true
  | a :: rest =>
    rest.all (fun b => !(a.lockID = b.lockID && a.slotNumber = b.slotNumber)) &&
      slotsDistinct rest

/-- Modelled from the spec (§8 invariant 1): for every lock, the
non-expired guest assignments have distinct slot numbers, each within
`[1, totalSlots]`. -/
def slotOccupancyOK (totalSlots : Int) (store : SyncStore) : Bool :=
  let live := store.assignments.filter fun a => pinNonExpired store.pins a.guestPINID
  slotsDistinct live &&
    live.all fun a => 1 ≤ a.slotNumber && a.slotNumber ≤ totalSlots

/-! ### Concrete fixtures used by individual claim checks -/

/-- Two future events synced for a calendar mapped to the single lock
`L1`: the store after running the create branch of `processEvent` twice. -/
def c1Store : SyncStore :=
  processEventCreate
    (processEventCreate ⟨[], []⟩ ⟨2026, 2, 1, 12, 0, 0⟩ (15, 0) (11, 0) ⟨4, 8⟩
      "cal1" "P1"
      ⟨"E1".toList, [], [], ⟨2030, 1, 10, 0, 0, 0⟩, ⟨2030, 1, 12, 0, 0, 0⟩⟩ ["L1"])
    ⟨2026, 2, 1, 12, 0, 0⟩ (15, 0) (11, 0) ⟨4, 8⟩ "cal1" "P2"
    ⟨"E2".toList, [], [], ⟨2030, 1, 20, 0, 0, 0⟩, ⟨2030, 1, 22, 0, 0, 0⟩⟩ ["L1"]

/-- A stored guest PIN valid from 2030-01-12 15:00 to 2030-01-14 11:00 UTC. -/
def c4Stored : GuestPIN :=
  ⟨"B1", "cal2", "E9".toList, none, "1234".toList, "date_based",
    ⟨2030, 1, 12, 15, 0, 0⟩, ⟨2030, 1, 14, 11, 0, 0⟩, "pending", true⟩

/-- The query window 2030-01-10 15:00 .. 2030-01-12 11:00 UTC: it ends
four hours before `c4Stored` begins. -/
def c4QFrom : DateTime := ⟨2030, 1, 10, 15, 0, 0⟩

/-- End of the `c4QFrom` query window. -/
def c4QUntil : DateTime := ⟨2030, 1, 12, 11, 0, 0⟩

/-- The mirror-image stored PIN occupying the query window of the C4
scenario, used to query in the opposite direction. -/
def c4Mirror : GuestPIN :=
  ⟨"A1", "cal1", "E8".toList, none, "1234".toList, "date_based",
    c4QFrom, c4QUntil, "pending", true⟩

/-- A scheduler state with one static PIN assignment awaiting sync. -/
def c5State : SchedState := ⟨[], [⟨"P", "L", 3, "pending"⟩]⟩

end GLM

/-! ### Helper lemmas -/

namespace GLM

theorem natToDigitsAux_fuel {f₁ f₂ n : Nat} (h₁ : n < f₁) (h₂ : n < f₂) :
    natToDigitsAux f₁ n = natToDigitsAux f₂ n := by
  induction f₁ generalizing f₂ n with
  | zero => omega
  | succ f₁ ih =>
    match f₂, h₂ with
    | f₂ + 1, _ =>
      simp only [natToDigitsAux]
      split
      · rfl
      · rename_i hn
        have hd : n / 10 < n := Nat.div_lt_self (by omega) (by omega)
        rw [@ih f₂ (n / 10) (by omega) (by omega)]

theorem natToDigits_eq (n : Nat) :
    natToDigits n =
      if n < 10 then [digitCh n] else natToDigits (n / 10) ++ [digitCh n] := by
  unfold natToDigits
  conv_lhs => rw [natToDigitsAux]
  split
  · rfl
  · rename_i hn
    have hd : n / 10 < n := Nat.div_lt_self (by omega) (by omega)
    rw [natToDigitsAux_fuel (show n / 10 < n by omega) (Nat.lt_succ_self _)]

theorem pow10_eq_pow (n : Nat) : pow10 n = 10 ^ n := by
  induction n with
  | zero => rfl
  | succ n ih => rw [pow10, ih, pow_succ]; ring

theorem digitCh_isDigit (n : Nat) : isDigitCh (digitCh n) = true := by
  have h : n % 10 < 10 := Nat.mod_lt _ (by omega)
  unfold digitCh
  set m := n % 10 with hm
  interval_cases m <;> decide

theorem natToDigits_all_digits (n : Nat) :
    ∀ c ∈ natToDigits n, isDigitCh c = true := by
  induction n using Nat.strong_induction_on with
  | _ n ih =>
    rw [natToDigits_eq]
    split
    · intro c hc
      simp only [List.mem_singleton] at hc
      simp [hc, digitCh_isDigit]
    · intro c hc
      rcases List.mem_append.mp hc with h | h
      · exact ih (n / 10) (Nat.div_lt_self (by omega) (by omega)) c h
      · simp only [List.mem_singleton] at h
        simp [h, digitCh_isDigit]

theorem natToDigits_length_pos (n : Nat) : 0 < (natToDigits n).length := by
  rw [natToDigits_eq]; split <;> simp

theorem natToDigits_length_le {n w : Nat} (hw : 0 < w) (h : n < 10 ^ w) :
    (natToDigits n).length ≤ w := by
  induction w generalizing n with
  | zero => omega
  | succ w ih =>
    rw [natToDigits_eq]
    split
    · simp only [List.length_singleton]; omega
    · rename_i hn
      have hw' : 0 < w := by
        by_contra hc
        have : w = 0 := by omega
        subst this
        simp at h
        omega
      have : n / 10 < 10 ^ w := by
        rw [Nat.div_lt_iff_lt_mul (by omega)]
        calc n < 10 ^ (w + 1) := h
        _ = 10 ^ w * 10 := by rw [pow_succ]
      have := ih hw' this
      simp only [List.length_append, List.length_singleton]
      omega

theorem natPad_length (w n : Nat) :
    (natPad w n).length = max w (natToDigits n).length := by
  simp only [natPad, List.length_append, List.length_replicate]
  omega

theorem natPad_length_eq {w n : Nat} (hw : 0 < w) (h : n < 10 ^ w) :
    (natPad w n).length = w := by
  rw [natPad_length]
  have := natToDigits_length_le hw h
  omega

theorem natPad_all_digits (w n : Nat) :
    ∀ c ∈ natPad w n, isDigitCh c = true := by
  intro c hc
  rcases List.mem_append.mp hc with h | h
  · rw [List.eq_of_mem_replicate h]; decide
  · exact natToDigits_all_digits n c h


theorem isValidPIN_spec {g : Generator} {p : List Char}
    (h : isValidPIN g p = true) :
    g.minLength ≤ p.length ∧ p.length ≤ g.maxLength ∧
      ∀ c ∈ p, isDigitCh c = true := by
  simp only [isValidPIN, Bool.and_eq_true, decide_eq_true_eq,
    List.all_eq_true] at h
  exact ⟨h.1.1, h.1.2, h.2⟩

theorem generateFromDates_eq_padTruncate (g : Generator) (a b : DateTime) :
    generateFromDates g a b =
      padTruncate g
        (if 4 < g.minLength then
          natPad 2 a.month ++ natPad 2 a.day ++ natPad 2 b.day
        else natPad 2 a.day ++ natPad 2 b.day) := by
  simp only [generateFromDates, padTruncate]

theorem padTruncate_length {g : Generator} (pin : List Char)
    (h : g.minLength ≤ g.maxLength) :
    g.minLength ≤ (padTruncate g pin).length ∧
      (padTruncate g pin).length ≤ g.maxLength := by
  simp only [padTruncate]
  split
  · rename_i hlong
    simp only [List.length_take, List.length_append, List.length_replicate] at hlong ⊢
    omega
  · rename_i hshort
    simp only [List.length_append, List.length_replicate] at hshort ⊢
    omega

theorem padTruncate_digits {g : Generator} {pin : List Char}
    (h : ∀ c ∈ pin, isDigitCh c = true) :
    ∀ c ∈ padTruncate g pin, isDigitCh c = true := by
  intro c hc
  simp only [padTruncate] at hc
  have hmem : c ∈ List.replicate (g.minLength - pin.length) '0' ++ pin := by
    split at hc
    · exact List.mem_of_mem_take hc
    · exact hc
  rcases List.mem_append.mp hmem with h0 | h1
  · rw [List.eq_of_mem_replicate h0]; decide
  · exact h c h1

theorem generateFromDates_length {g : Generator} (a b : DateTime)
    (h : g.minLength ≤ g.maxLength) :
    g.minLength ≤ (generateFromDates g a b).length ∧
      (generateFromDates g a b).length ≤ g.maxLength := by
  rw [generateFromDates_eq_padTruncate]
  exact padTruncate_length _ h

theorem generateFromDates_digits (g : Generator) (a b : DateTime) :
    ∀ c ∈ generateFromDates g a b, isDigitCh c = true := by
  rw [generateFromDates_eq_padTruncate]
  apply padTruncate_digits
  intro c hc
  split at hc <;>
    · rcases List.mem_append.mp hc with h1 | h2
      · first
        | exact natPad_all_digits _ _ c h1
        | rcases List.mem_append.mp h1 with h3 | h4
          · exact natPad_all_digits _ _ c h3
          · exact natPad_all_digits _ _ c h4
      · exact natPad_all_digits _ _ c h2

theorem generateFromDescription_length {g : Generator} (d u : List Char)
    (h : 0 < g.minLength) :
    (generateFromDescription g d u).length = g.minLength := by
  simp only [generateFromDescription]
  apply natPad_length_eq h
  rw [← pow10_eq_pow]
  exact Nat.mod_lt _ (by rw [pow10_eq_pow]; positivity)

theorem generateFromDescription_digits (g : Generator) (d u : List Char) :
    ∀ c ∈ generateFromDescription g d u, isDigitCh c = true := by
  simp only [generateFromDescription]
  exact natPad_all_digits _ _

theorem take4Digits_spec {l d : List Char} (h : take4Digits l = some d) :
    d.length = 4 ∧ ∀ c ∈ d, isDigitCh c = true := by
  cases l with
  | nil => simp [take4Digits] at h
  | cons a t1 =>
  cases t1 with
  | nil => simp [take4Digits] at h
  | cons b t2 =>
  cases t2 with
  | nil => simp [take4Digits] at h
  | cons c2 t3 =>
  cases t3 with
  | nil => simp [take4Digits] at h
  | cons e t4 =>
  simp only [take4Digits] at h
  split at h
  · rename_i hcond
    simp only [Option.some.injEq] at h
    subst h
    simp only [Bool.and_eq_true] at hcond
    refine ⟨rfl, ?_⟩
    intro x hx
    simp only [List.mem_cons, List.not_mem_nil, or_false] at hx
    rcases hx with rfl | rfl | rfl | rfl
    exacts [hcond.1.1.1, hcond.1.1.2, hcond.1.2, hcond.2]
  · simp at h

theorem matchLitSpDigits_spec {lit s d : List Char}
    (h : matchLitSpDigits lit s = some d) :
    d.length = 4 ∧ ∀ c ∈ d, isDigitCh c = true := by
  simp only [matchLitSpDigits] at h
  split at h
  · exact take4Digits_spec h
  · simp at h

theorem findLitSpDigits_spec {lit s d : List Char}
    (h : findLitSpDigits lit s = some d) :
    d.length = 4 ∧ ∀ c ∈ d, isDigitCh c = true := by
  induction s with
  | nil =>
    rw [findLitSpDigits] at h
    exact matchLitSpDigits_spec h
  | cons a t ih =>
    rw [findLitSpDigits] at h
    split at h
    · rename_i d2 heq
      cases h
      exact matchLitSpDigits_spec heq
    · exact ih h

theorem extractPhoneLast4_shape {desc : List Char}
    (h : extractPhoneLast4 desc ≠ []) :
    (extractPhoneLast4 desc).length = 4 ∧
      ∀ c ∈ extractPhoneLast4 desc, isDigitCh c = true := by
  unfold extractPhoneLast4 at h ⊢
  cases h1 : findLitSpDigits "(Last 4 Digits):".toList desc with
  | some d => exact findLitSpDigits_spec h1
  | none =>
  cases h2 : findLitSpDigits "Last 4 Digits:".toList desc with
  | some d => exact findLitSpDigits_spec h2
  | none =>
  cases h3 : findLitSpDigits "last 4 digits:".toList desc with
  | some d => exact findLitSpDigits_spec h3
  | none =>
  cases h4 : findLitSpDigits "(last 4 digits):".toList desc with
  | some d => exact findLitSpDigits_spec h4
  | none => exact absurd (by rw [h1, h2, h3, h4]) h

theorem digit_not_space {c : Char} (h : isDigitCh c = true) :
    isSpaceCh c = false := by
  cases hs : isSpaceCh c with
  | false => rfl
  | true =>
    simp only [isSpaceCh, Bool.or_eq_true, decide_eq_true_eq] at hs
    rcases hs with (((h1 | h2) | h3) | h4) | h5 <;>
      (subst_vars; exact absurd h (by decide))

theorem dropWhile_all_append {p : Char → Bool} {w l : List Char}
    (hw : ∀ c ∈ w, p c = true) :
    List.dropWhile p (w ++ l) = List.dropWhile p l := by
  induction w with
  | nil => simp
  | cons a t ih =>
    have ha : p a = true := hw a (List.mem_cons_self a t)
    simp only [List.cons_append, List.dropWhile_cons, ha, if_true]
    exact ih fun c hc => hw c (List.mem_cons_of_mem a hc)

theorem matchLitSpDigits_append {lit w d rest : List Char}
    (hw : ∀ c ∈ w, isSpaceCh c = true) (hd4 : d.length = 4)
    (hd : ∀ c ∈ d, isDigitCh c = true) :
    matchLitSpDigits lit (lit ++ (w ++ (d ++ rest))) = some d := by
  obtain ⟨a, b, c, e, rfl⟩ : ∃ a b c e, d = [a, b, c, e] := by
    match d, hd4 with
    | [a, b, c, e], _ => exact ⟨a, b, c, e, rfl⟩
  have hpre : lit.isPrefixOf (lit ++ (w ++ ([a, b, c, e] ++ rest))) = true := by
    rw [List.isPrefixOf_iff_prefix]
    exact List.prefix_append _ _
  have hda : isDigitCh a = true := hd a (by simp)
  have hdb : isDigitCh b = true := hd b (by simp)
  have hdc : isDigitCh c = true := hd c (by simp)
  have hde : isDigitCh e = true := hd e (by simp)
  simp only [matchLitSpDigits, hpre, if_true, List.drop_left]
  rw [dropWhile_all_append hw]
  simp only [List.cons_append, List.dropWhile_cons, digit_not_space hda,
    Bool.false_eq_true, if_false]
  simp [take4Digits, hda, hdb, hdc, hde]

theorem findLitSpDigits_append {lit w d rest : List Char}
    (hw : ∀ c ∈ w, isSpaceCh c = true) (hd4 : d.length = 4)
    (hd : ∀ c ∈ d, isDigitCh c = true) :
    findLitSpDigits lit (lit ++ (w ++ (d ++ rest))) = some d := by
  have hm := @matchLitSpDigits_append lit w d rest hw hd4 hd
  cases hs : lit ++ (w ++ (d ++ rest)) with
  | nil =>
    rw [hs] at hm
    rw [findLitSpDigits, hm]
  | cons a t =>
    rw [hs] at hm
    rw [findLitSpDigits, hm]

theorem findLitSpDigits_none_of_not_mem {lit s : List Char} {c : Char}
    (hc : c ∈ lit) (hs : c ∉ s) : findLitSpDigits lit s = none := by
  induction s with
  | nil =>
    have hm : matchLitSpDigits lit [] = none := by
      cases lit with
      | nil => exact absurd hc (List.not_mem_nil c)
      | cons x xs => simp [matchLitSpDigits, List.isPrefixOf]
    rw [findLitSpDigits, hm]
  | cons a t ih =>
    have hm : matchLitSpDigits lit (a :: t) = none := by
      simp only [matchLitSpDigits]
      rw [if_neg]
      intro hp
      rw [List.isPrefixOf_iff_prefix] at hp
      exact hs (hp.subset hc)
    rw [findLitSpDigits, hm]
    exact ih fun hmem => hs (List.mem_cons_of_mem a hmem)

theorem not_mem_pattern_tail {x : Char} {w d rest : List Char}
    (hw : ∀ c ∈ w, isSpaceCh c = true) (hd : ∀ c ∈ d, isDigitCh c = true)
    (hxs : isSpaceCh x = false) (hxd : isDigitCh x = false)
    (hxr : x ∉ rest) : x ∉ w ++ (d ++ rest) := by
  intro hmem
  rcases List.mem_append.mp hmem with h | h
  · have := hw x h
    rw [hxs] at this
    exact absurd this (by decide)
  · rcases List.mem_append.mp h with h2 | h3
    · have := hd x h2
      rw [hxd] at this
      exact absurd this (by decide)
    · exact hxr h3

theorem goStrToInt_foldl_bounds {pin : List Char}
    (hd : ∀ c ∈ pin, isDigitCh c = true) :
    ∀ acc : Int, 0 ≤ acc →
      0 ≤ pin.foldl (fun n c => n * 10 + ((c.toNat : Int) - 48)) acc ∧
      pin.foldl (fun n c => n * 10 + ((c.toNat : Int) - 48)) acc <
        (acc + 1) * ((pow10 pin.length : Nat) : Int) := by
  induction pin with
  | nil =>
    intro acc hacc
    simp only [List.foldl_nil, List.length_nil, pow10, Nat.cast_one, mul_one]
    omega
  | cons c t ih =>
    intro acc hacc
    have hc := hd c (List.mem_cons_self c t)
    simp only [isDigitCh, Bool.and_eq_true, decide_eq_true_eq] at hc
    have hc48 : (48 : Nat) ≤ c.toNat := hc.1
    have hc57 : c.toNat ≤ (57 : Nat) := hc.2
    have hv0 : (0 : Int) ≤ (c.toNat : Int) - 48 := by
      have : (48 : Int) ≤ (c.toNat : Int) := by exact_mod_cast hc48
      omega
    have hv9 : (c.toNat : Int) - 48 ≤ 9 := by
      have : (c.toNat : Int) ≤ 57 := by exact_mod_cast hc57
      omega
    have hacc2 : (0 : Int) ≤ acc * 10 + ((c.toNat : Int) - 48) := by
      have : (0 : Int) ≤ acc * 10 := by omega
      omega
    obtain ⟨H1, H2⟩ :=
      ih (fun x hx => hd x (List.mem_cons_of_mem c hx))
        (acc * 10 + ((c.toNat : Int) - 48)) hacc2
    simp only [List.foldl_cons]
    refine ⟨H1, ?_⟩
    have hp : (0 : Int) < ((pow10 t.length : Nat) : Int) := by
      have : 0 < pow10 t.length := by
        rw [pow10_eq_pow]; positivity
      exact_mod_cast this
    have hstep : acc * 10 + ((c.toNat : Int) - 48) + 1 ≤ (acc + 1) * 10 := by
      omega
    have hlen : ((pow10 (c :: t).length : Nat) : Int) =
        10 * ((pow10 t.length : Nat) : Int) := by
      simp only [List.length_cons, pow10]
      push_cast
      ring
    refine lt_of_lt_of_le H2 ?_
    rw [hlen, show (acc + 1) * (10 * ((pow10 t.length : Nat) : Int)) =
      (acc + 1) * 10 * ((pow10 t.length : Nat) : Int) from by ring]
    exact mul_le_mul_of_nonneg_right hstep (le_of_lt hp)

theorem goStrToInt_bounds {pin : List Char}
    (hd : ∀ c ∈ pin, isDigitCh c = true) :
    0 ≤ goStrToInt pin ∧
      goStrToInt pin < ((pow10 pin.length : Nat) : Int) := by
  have h := goStrToInt_foldl_bounds hd 0 (le_refl 0)
  simpa [goStrToInt] using h

theorem incrementPIN_eq_natPad {pin : List Char}
    (hd : ∀ c ∈ pin, isDigitCh c = true) (k : Nat) :
    incrementPIN pin (k : Int) =
      natPad pin.length ((goStrToInt pin + (k : Int)).toNat % pow10 pin.length) := by
  have hb := goStrToInt_bounds hd
  have hnum : 0 ≤ goStrToInt pin + (k : Int) := by omega
  have htm : Int.tmod (goStrToInt pin + (k : Int)) ((pow10 pin.length : Nat) : Int) =
      (((goStrToInt pin + (k : Int)).toNat % pow10 pin.length : Nat) : Int) := by
    conv_lhs =>
      rw [show goStrToInt pin + (k : Int) =
        (((goStrToInt pin + (k : Int)).toNat : Nat) : Int) from
        (Int.toNat_of_nonneg hnum).symm]
    exact (Int.ofNat_tmod _ _).symm
  simp only [incrementPIN]
  rw [htm]
  simp only [sprintfPad0]
  rw [if_neg (by exact_mod_cast Int.not_lt.mpr (Int.ofNat_nonneg _))]
  rw [Int.natAbs_ofNat]

theorem incrementPIN_digit_length {pin : List Char}
    (hd : ∀ c ∈ pin, isDigitCh c = true) (hl : 0 < pin.length) (k : Nat) :
    (incrementPIN pin (k : Int)).length = pin.length := by
  rw [incrementPIN_eq_natPad hd]
  apply natPad_length_eq hl
  rw [← pow10_eq_pow]
  exact Nat.mod_lt _ (by rw [pow10_eq_pow]; positivity)

theorem altCandidate_eq {orig : List Char}
    (hd : ∀ c ∈ orig, isDigitCh c = true) (hl : 0 < orig.length)
    {pinLen : Nat} (hpl : orig.length ≤ pinLen) (i : Nat) :
    altCandidate orig pinLen i =
      natPad orig.length
        ((goStrToInt orig + ((i + 1 : Nat) : Int)).toNat % pow10 orig.length) := by
  simp only [altCandidate]
  rw [show ((i : Int) + 1) = ((i + 1 : Nat) : Int) by push_cast; ring]
  rw [incrementPIN_digit_length hd hl, if_neg (by omega)]
  exact incrementPIN_eq_natPad hd (i + 1)

theorem findAltLoop_none_iff (rows : List GuestPIN) (vF vU : DateTime)
    (orig : List Char) (pinLen : Nat) :
    ∀ fuel i : Nat,
      (findAltLoop rows vF vU orig pinLen i fuel = none ↔
        ∀ k, i ≤ k → k < i + fuel →
          hasConflict rows (altCandidate orig pinLen k) vF vU "" = true) := by
  intro fuel
  induction fuel with
  | zero =>
    intro i
    constructor
    · intro _ k hk1 hk2
      omega
    · intro _
      rfl
  | succ fuel ih =>
    intro i
    rw [findAltLoop]
    split
    · rename_i hcon
      rw [ih (i + 1)]
      constructor
      · intro hall k hk1 hk2
        rcases Nat.eq_or_lt_of_le hk1 with rfl | hlt
        · exact hcon
        · exact hall k (by omega) (by omega)
      · intro hall k hk1 hk2
        exact hall k (by omega) (by omega)
    · rename_i hcon
      constructor
      · intro h
        exact absurd h (by simp)
      · intro hall
        exact absurd (hall i (by omega) (by omega)) hcon

theorem findAltLoop_some_spec (rows : List GuestPIN) (vF vU : DateTime)
    (orig : List Char) (pinLen : Nat) :
    ∀ (fuel i : Nat) (m : List Char),
      findAltLoop rows vF vU orig pinLen i fuel = some m →
        ∃ j, i ≤ j ∧ j < i + fuel ∧ m = altCandidate orig pinLen j ∧
          hasConflict rows (altCandidate orig pinLen j) vF vU "" = false ∧
          ∀ k, i ≤ k → k < j →
            hasConflict rows (altCandidate orig pinLen k) vF vU "" = true := by
  intro fuel
  induction fuel with
  | zero =>
    intro i m h
    simp [findAltLoop] at h
  | succ fuel ih =>
    intro i m h
    rw [findAltLoop] at h
    split at h
    · rename_i hcon
      obtain ⟨j, hj1, hj2, hj3, hj4, hj5⟩ := ih (i + 1) m h
      refine ⟨j, by omega, by omega, hj3, hj4, ?_⟩
      intro k hk1 hk2
      rcases Nat.eq_or_lt_of_le hk1 with rfl | hlt
      · exact hcon
      · exact hj5 k (by omega) hk2
    · rename_i hcon
      cases h
      exact ⟨i, le_refl i, by omega, rfl, by simpa using hcon,
        fun k hk1 hk2 => by omega⟩

end GLM

/-- Claim C6: for every static PIN schedule with start "22:00" and end
"06:00" on day-of-week d (an overnight window), the schedule-match
predicate is true at 23:59 and at 05:59 of day d, and false at 06:01 of
day d. -/
theorem c6_overnight_schedule (d : Int) :
    GLM.isScheduleActive ⟨d, "22:00".toList, "06:00".toList⟩ d "23:59".toList = true ∧
    GLM.isScheduleActive ⟨d, "22:00".toList, "06:00".toList⟩ d "05:59".toList = true ∧
    GLM.isScheduleActive ⟨d, "22:00".toList, "06:00".toList⟩ d "06:01".toList = false := by
  refine ⟨?_, ?_, ?_⟩ <;> simp [GLM.isScheduleActive] <;> decide


/-- Claim C1 (code-bug evaluation): the slot-allocation step of the sync
pipeline is a stub (`slotNumber := 1 // TODO: Implement slot allocation`),
so syncing two distinct future events for a calendar mapped to one lock
gives both non-expired guest PINs slot 1 on that lock, violating the
spec's slot-occupancy invariant. -/
theorem c1_slot_allocation_stub_violates_invariant :
    GLM.c1Store.assignments =
      [⟨"P1", "L1", 1, "pending"⟩, ⟨"P2", "L1", 1, "pending"⟩] ∧
    GLM.slotOccupancyOK 30 GLM.c1Store = false := by
  decide

/-- Claim C2 counterexample: queueing the same set operation
(lock `L1`, slot 3, code 2468) twice and draining performs two write
attempts on the wire for that (lock, slot, code), not one. -/
theorem c2_duplicate_queue_set_two_attempts :
    (GLM.flushWireAttempts
      (GLM.setPIN (GLM.setPIN [] "L1" "2468".toList 3 "G1") "L1" "2468".toList 3 "G1")).count
        ⟨"L1", 3, "set", "2468".toList⟩ = 2 ∧
    ¬ (GLM.flushWireAttempts
      (GLM.setPIN (GLM.setPIN [] "L1" "2468".toList 3 "G1") "L1" "2468".toList 3 "G1")).count
        ⟨"L1", 3, "set", "2468".toList⟩ = 1 := by
  decide

/-- Claim C2 (amended): the Lock Writer performs no deduplication: a
drain executes exactly one write attempt per queued operation, in queue
order, so two `queue_set` calls with the same (lock, slot, code) before
a drain result in exactly two write attempts for that key. -/
theorem c2_one_attempt_per_queued_operation
    (pendingOps : List GLM.PINOperation) (op : GLM.PINOperation) :
    GLM.flushWireAttempts (GLM.queueOperation pendingOps op) =
      GLM.flushWireAttempts pendingOps ++
        [⟨op.lockID, op.slotNumber, op.operation, op.pinCode⟩] ∧
    ∀ (l g : String) (c : List Char) (s : Int),
      (GLM.flushWireAttempts (GLM.setPIN (GLM.setPIN pendingOps l c s g) l c s g)).count
          ⟨l, s, "set", c⟩ =
        (GLM.flushWireAttempts pendingOps).count ⟨l, s, "set", c⟩ + 2 := by
  constructor
  · simp [GLM.flushWireAttempts, GLM.queueOperation]
  · intro l g c s
    simp [GLM.flushWireAttempts, GLM.setPIN, GLM.queueOperation,
      List.count_append]

/-- Claim C4 (code-bug evaluation): `CheckConflicts` passes RFC3339
strings ("YYYY-MM-DDTHH:MM:SSZ") into the SQL text comparisons of
`FindConflicts`, while the stored DATETIME text uses the driver's
space-separated layout, so on equal dates the stored text always sorts
below the argument. Against the stored PIN `c4Stored` the checker
reports a conflict for a window that ends four hours before the stored
window begins (no timestamp overlap), and the mirrored query in the
opposite direction reports none — the relation is also asymmetric. -/
theorem c4_rfc3339_text_comparison_diverges :
    (GLM.checkConflicts [GLM.c4Stored] "1234".toList GLM.c4QFrom GLM.c4QUntil "").map
        GLM.Conflict.conflictingPIN = ["B1"] ∧
    GLM.specOverlap GLM.c4QFrom GLM.c4QUntil
      GLM.c4Stored.validFrom GLM.c4Stored.validUntil = false ∧
    GLM.checkConflicts [GLM.c4Mirror] "1234".toList
      GLM.c4Stored.validFrom GLM.c4Stored.validUntil "" = [] := by
  decide

/-- Claim C5 counterexample: with every lock write failing, a rising
edge still flips the in-memory `pinStates` entry to `true` (the
assignment is recorded `failed`), and the next evaluation tick with the
schedule still active takes no action: the edge is not re-attempted. -/
theorem c5_failed_write_still_flips_state :
    GLM.getPinState (GLM.activatePin (fun _ => false) GLM.c5State "P") "P" = true ∧
    (GLM.activatePin (fun _ => false) GLM.c5State "P").assignments =
      [⟨"P", "L", 3, "failed"⟩] ∧
    (GLM.pinTick (fun _ => false) (GLM.activatePin (fun _ => false) GLM.c5State "P")
        "P" true).2 = GLM.SchedAction.idle := by
  exact ⟨rfl, rfl, rfl⟩

/-- Claim C5 (amended): `activatePin` and `deactivatePin` set the
in-memory `pinStates` entry to the target residency unconditionally,
whatever the lock-write outcomes, so a subsequent tick with an
unchanged schedule verdict takes no action (failed writes are not
re-attempted through the edge mechanism). -/
theorem c5_pin_state_set_unconditionally
    (w : GLM.StaticPINLock → Bool) (st : GLM.SchedState) (p : String) :
    GLM.getPinState (GLM.activatePin w st p) p = true ∧
    GLM.getPinState (GLM.deactivatePin w st p) p = false ∧
    (GLM.pinTick w (GLM.activatePin w st p) p true).2 = GLM.SchedAction.idle ∧
    (GLM.pinTick w (GLM.deactivatePin w st p) p false).2 = GLM.SchedAction.idle := by
  have ha : GLM.getPinState (GLM.activatePin w st p) p = true := by
    simp [GLM.activatePin, GLM.getPinState, GLM.setPinState]
  have hd : GLM.getPinState (GLM.deactivatePin w st p) p = false := by
    simp [GLM.deactivatePin, GLM.getPinState, GLM.setPinState]
  refine ⟨ha, hd, ?_, ?_⟩
  · simp [GLM.pinTick, ha]
  · simp [GLM.pinTick, hd]


/-- Claim C9: the date-based strategy composes `"%02d%02d"` of the
check-in and check-out days, prepends `"%02d"` of the check-in month
exactly when `minLength > 4`, and pads/truncates the result into
`[minLength, maxLength]`; with `minLength = 4`, check-in day 15 and
check-out day 18 the chain returns "1518" with method `date_based`. -/
theorem c9_date_based_composition (g : GLM.Generator) (a b : GLM.DateTime)
    (h1 : 4 ≤ g.minLength) (h2 : g.minLength ≤ g.maxLength)
    (h3 : g.maxLength ≤ 8) :
    (4 < g.minLength →
      GLM.generateFromDates g a b =
        GLM.padTruncate g
          (GLM.natPad 2 a.month ++ GLM.natPad 2 a.day ++ GLM.natPad 2 b.day)) ∧
    (g.minLength = 4 →
      GLM.generateFromDates g a b =
        GLM.padTruncate g (GLM.natPad 2 a.day ++ GLM.natPad 2 b.day)) ∧
    g.minLength ≤ (GLM.generateFromDates g a b).length ∧
    (GLM.generateFromDates g a b).length ≤ g.maxLength ∧
    GLM.generateFromEvent ⟨4, 8⟩
        ⟨"E1".toList, [], [], ⟨2030, 1, 15, 0, 0, 0⟩, ⟨2030, 1, 18, 0, 0, 0⟩⟩ [] =
      ⟨"1518".toList, GLM.genMethodDateBased, true⟩ := by
  obtain ⟨hlo, hhi⟩ := GLM.generateFromDates_length a b h2
  refine ⟨?_, ?_, hlo, hhi, by decide⟩
  · intro hgt
    rw [GLM.generateFromDates_eq_padTruncate, if_pos hgt]
  · intro heq
    rw [GLM.generateFromDates_eq_padTruncate, if_neg (by omega)]

/-- Claim C9 witness: the composition theorem applied to the generator
(5, 8) at concrete dates, with its hypotheses discharged. -/
theorem c9_date_based_composition_witness :
    ((4 : Nat) ≤ 5 ∧ (5 : Nat) ≤ 8 ∧ (8 : Nat) ≤ 8) ∧
    ((4 < (5 : Nat) →
      GLM.generateFromDates ⟨5, 8⟩ ⟨2030, 1, 15, 0, 0, 0⟩ ⟨2030, 2, 18, 0, 0, 0⟩ =
        GLM.padTruncate ⟨5, 8⟩
          (GLM.natPad 2 1 ++ GLM.natPad 2 15 ++ GLM.natPad 2 18)) ∧
    ((5 : Nat) = 4 →
      GLM.generateFromDates ⟨5, 8⟩ ⟨2030, 1, 15, 0, 0, 0⟩ ⟨2030, 2, 18, 0, 0, 0⟩ =
        GLM.padTruncate ⟨5, 8⟩ (GLM.natPad 2 15 ++ GLM.natPad 2 18)) ∧
    (5 : Nat) ≤ (GLM.generateFromDates ⟨5, 8⟩ ⟨2030, 1, 15, 0, 0, 0⟩
        ⟨2030, 2, 18, 0, 0, 0⟩).length ∧
    (GLM.generateFromDates ⟨5, 8⟩ ⟨2030, 1, 15, 0, 0, 0⟩
        ⟨2030, 2, 18, 0, 0, 0⟩).length ≤ (8 : Nat) ∧
    GLM.generateFromEvent ⟨4, 8⟩
        ⟨"E1".toList, [], [], ⟨2030, 1, 15, 0, 0, 0⟩, ⟨2030, 1, 18, 0, 0, 0⟩⟩ [] =
      ⟨"1518".toList, GLM.genMethodDateBased, true⟩) :=
  ⟨by decide,
    c9_date_based_composition ⟨5, 8⟩ ⟨2030, 1, 15, 0, 0, 0⟩ ⟨2030, 2, 18, 0, 0, 0⟩
      (by decide) (by decide) (by decide)⟩

/-- Claim C10: a non-empty custom code failing `isValidPIN` is skipped
silently: the chain behaves exactly as with no custom code, still
succeeds, and the method is produced by a later strategy (never
`custom`). -/
theorem c10_invalid_custom_falls_through (g : GLM.Generator)
    (event : GLM.CalendarEvent) (customPIN : List Char)
    (hne : customPIN ≠ []) (hinv : GLM.isValidPIN g customPIN = false) :
    GLM.generateFromEvent g event customPIN = GLM.generateFromEvent g event [] ∧
    (GLM.generateFromEvent g event customPIN).success = true ∧
    (GLM.generateFromEvent g event customPIN).method ≠ GLM.genMethodCustom := by
  have heq : GLM.generateFromEvent g event customPIN =
      GLM.generateFromEvent g event [] := by
    simp [GLM.generateFromEvent, hinv]
  have hshape : (GLM.generateFromEvent g event []).success = true ∧
      (GLM.generateFromEvent g event []).method ≠ GLM.genMethodCustom := by
    have hc : (decide (([] : List Char) ≠ []) && GLM.isValidPIN g []) = false := by
      simp
    simp only [GLM.generateFromEvent, hc]
    simp only [Bool.false_eq_true, if_false]
    split
    · exact ⟨rfl, by simp [GLM.genMethodPhoneLast4, GLM.genMethodCustom]⟩
    · split
      · exact ⟨rfl, by simp [GLM.genMethodDescriptionRandom, GLM.genMethodCustom]⟩
      · exact ⟨rfl, by simp [GLM.genMethodDateBased, GLM.genMethodCustom]⟩
  exact ⟨heq, heq ▸ hshape.1, heq ▸ hshape.2⟩

/-- Claim C10 witness: the fall-through theorem applied to the invalid
custom code "12" and an event whose description carries a phone
pattern. -/
theorem c10_invalid_custom_falls_through_witness :
    ("12".toList ≠ [] ∧ GLM.isValidPIN ⟨4, 8⟩ "12".toList = false) ∧
    (GLM.generateFromEvent ⟨4, 8⟩
        ⟨"E2".toList, [], "(Last 4 Digits): 0421".toList,
          ⟨2030, 1, 10, 0, 0, 0⟩, ⟨2030, 1, 12, 0, 0, 0⟩⟩ "12".toList =
      GLM.generateFromEvent ⟨4, 8⟩
        ⟨"E2".toList, [], "(Last 4 Digits): 0421".toList,
          ⟨2030, 1, 10, 0, 0, 0⟩, ⟨2030, 1, 12, 0, 0, 0⟩⟩ [] ∧
    (GLM.generateFromEvent ⟨4, 8⟩
        ⟨"E2".toList, [], "(Last 4 Digits): 0421".toList,
          ⟨2030, 1, 10, 0, 0, 0⟩, ⟨2030, 1, 12, 0, 0, 0⟩⟩ "12".toList).success = true ∧
    (GLM.generateFromEvent ⟨4, 8⟩
        ⟨"E2".toList, [], "(Last 4 Digits): 0421".toList,
          ⟨2030, 1, 10, 0, 0, 0⟩, ⟨2030, 1, 12, 0, 0, 0⟩⟩ "12".toList).method ≠
      GLM.genMethodCustom) :=
  ⟨⟨by decide, by decide⟩,
    c10_invalid_custom_falls_through ⟨4, 8⟩
      ⟨"E2".toList, [], "(Last 4 Digits): 0421".toList,
        ⟨2030, 1, 10, 0, 0, 0⟩, ⟨2030, 1, 12, 0, 0, 0⟩⟩ "12".toList
      (by decide) (by decide)⟩


/-- Claim C3 counterexample: with a generator configured min=5, max=8
(so 4 ≤ min ≤ max ≤ 8) and a description carrying a phone pattern, the
chain returns the 4-digit phone code "1234", whose length is below
`minLength`. -/
theorem c3_phone_last4_below_min_length :
    GLM.generateFromEvent ⟨5, 8⟩
        ⟨"E3".toList, [], "Last 4 Digits: 1234".toList,
          ⟨2030, 1, 10, 0, 0, 0⟩, ⟨2030, 1, 12, 0, 0, 0⟩⟩ [] =
      ⟨"1234".toList, GLM.genMethodPhoneLast4, true⟩ ∧
    (GLM.generateFromEvent ⟨5, 8⟩
        ⟨"E3".toList, [], "Last 4 Digits: 1234".toList,
          ⟨2030, 1, 10, 0, 0, 0⟩, ⟨2030, 1, 12, 0, 0, 0⟩⟩ []).pinCode.length <
      (5 : Nat) := by
  decide

/-- Claim C3 (amended): for every generator with
4 ≤ minLength ≤ maxLength ≤ 8, every event and custom code, the
generated PIN is digits-only with length in `[4, maxLength]`; the
length also reaches `minLength` except when the phone-last-4 strategy
produced the code (which is always exactly 4 digits). -/
theorem c3_pin_digits_and_length (g : GLM.Generator)
    (event : GLM.CalendarEvent) (customPIN : List Char)
    (h1 : 4 ≤ g.minLength) (h2 : g.minLength ≤ g.maxLength)
    (h3 : g.maxLength ≤ 8) :
    (∀ c ∈ (GLM.generateFromEvent g event customPIN).pinCode,
      GLM.isDigitCh c = true) ∧
    4 ≤ (GLM.generateFromEvent g event customPIN).pinCode.length ∧
    (GLM.generateFromEvent g event customPIN).pinCode.length ≤ g.maxLength ∧
    ((GLM.generateFromEvent g event customPIN).method ≠ GLM.genMethodPhoneLast4 →
      g.minLength ≤ (GLM.generateFromEvent g event customPIN).pinCode.length) := by
  unfold GLM.generateFromEvent
  split
  · rename_i hcond
    simp only [Bool.and_eq_true, decide_eq_true_eq] at hcond
    obtain ⟨hmin, hmax, hdig⟩ := GLM.isValidPIN_spec hcond.2
    refine ⟨hdig, ?_, hmax, fun _ => hmin⟩
    show 4 ≤ customPIN.length
    omega
  · split
    · rename_i hext
      obtain ⟨hlen, hdig⟩ := GLM.extractPhoneLast4_shape hext
      refine ⟨hdig, ?_, ?_, fun hm => absurd rfl hm⟩
      · show 4 ≤ (GLM.extractPhoneLast4 event.description).length
        omega
      · show (GLM.extractPhoneLast4 event.description).length ≤ g.maxLength
        omega
    · split
      · have hl : (GLM.generateFromDescription g event.description
            event.uid).length = g.minLength :=
          GLM.generateFromDescription_length _ _ (by omega)
        refine ⟨GLM.generateFromDescription_digits g _ _, ?_, ?_, fun _ => ?_⟩
        · show 4 ≤ (GLM.generateFromDescription g event.description
            event.uid).length
          omega
        · show (GLM.generateFromDescription g event.description
            event.uid).length ≤ g.maxLength
          omega
        · show g.minLength ≤ (GLM.generateFromDescription g event.description
            event.uid).length
          omega
      · obtain ⟨hlo, hhi⟩ :=
          GLM.generateFromDates_length event.dtStart event.dtEnd h2
        refine ⟨GLM.generateFromDates_digits g _ _, ?_, hhi, fun _ => hlo⟩
        show 4 ≤ (GLM.generateFromDates g event.dtStart event.dtEnd).length
        omega

/-- Claim C3 witness: the amended theorem applied to the generator
(5, 8), an event with no description and the empty custom code. -/
theorem c3_pin_digits_and_length_witness :
    ((4 : Nat) ≤ 5 ∧ (5 : Nat) ≤ 8 ∧ (8 : Nat) ≤ 8) ∧
    ((∀ c ∈ (GLM.generateFromEvent ⟨5, 8⟩
        ⟨"E4".toList, [], [], ⟨2030, 1, 10, 0, 0, 0⟩, ⟨2030, 1, 12, 0, 0, 0⟩⟩
        []).pinCode, GLM.isDigitCh c = true) ∧
    4 ≤ (GLM.generateFromEvent ⟨5, 8⟩
        ⟨"E4".toList, [], [], ⟨2030, 1, 10, 0, 0, 0⟩, ⟨2030, 1, 12, 0, 0, 0⟩⟩
        []).pinCode.length ∧
    (GLM.generateFromEvent ⟨5, 8⟩
        ⟨"E4".toList, [], [], ⟨2030, 1, 10, 0, 0, 0⟩, ⟨2030, 1, 12, 0, 0, 0⟩⟩
        []).pinCode.length ≤ (⟨5, 8⟩ : GLM.Generator).maxLength ∧
    ((GLM.generateFromEvent ⟨5, 8⟩
        ⟨"E4".toList, [], [], ⟨2030, 1, 10, 0, 0, 0⟩, ⟨2030, 1, 12, 0, 0, 0⟩⟩
        []).method ≠ GLM.genMethodPhoneLast4 →
      (⟨5, 8⟩ : GLM.Generator).minLength ≤ (GLM.generateFromEvent ⟨5, 8⟩
        ⟨"E4".toList, [], [], ⟨2030, 1, 10, 0, 0, 0⟩, ⟨2030, 1, 12, 0, 0, 0⟩⟩
        []).pinCode.length)) :=
  ⟨by decide,
    c3_pin_digits_and_length ⟨5, 8⟩
      ⟨"E4".toList, [], [], ⟨2030, 1, 10, 0, 0, 0⟩, ⟨2030, 1, 12, 0, 0, 0⟩⟩ []
      (by decide) (by decide) (by decide)⟩


/-- Claim C7 counterexample: the four extraction patterns are fixed
casings, not case-insensitive: the all-caps description
"LAST 4 DIGITS: 0421" contains the phone pattern in upper case, yet
extraction returns the empty string instead of "0421". -/
theorem c7_uppercase_pattern_not_matched :
    GLM.extractPhoneLast4 "LAST 4 DIGITS: 0421".toList = [] ∧
    GLM.extractPhoneLast4 "LAST 4 DIGITS: 0421".toList ≠ "0421".toList := by
  decide

/-- Claim C7 (amended): extraction succeeds for the casings the code
actually matches — "(Last 4 Digits):", "Last 4 Digits:",
"last 4 digits:" (the last two provided no earlier pattern occurs in
the trailing text) — returning the four digits after the optional
whitespace; and the concrete description "(Last 4 Digits): 0421"
yields pin_code "0421" with method phone_last4. -/
theorem c7_phone_extraction_for_supported_casings (w d rest : List Char)
    (hw : ∀ c ∈ w, GLM.isSpaceCh c = true) (hd4 : d.length = 4)
    (hd : ∀ c ∈ d, GLM.isDigitCh c = true) :
    GLM.extractPhoneLast4 ("(Last 4 Digits):".toList ++ (w ++ (d ++ rest))) = d ∧
    ('(' ∉ rest →
      GLM.extractPhoneLast4 ("Last 4 Digits:".toList ++ (w ++ (d ++ rest))) = d) ∧
    ('(' ∉ rest → 'L' ∉ rest →
      GLM.extractPhoneLast4 ("last 4 digits:".toList ++ (w ++ (d ++ rest))) = d) ∧
    GLM.extractPhoneLast4 "(last 4 digits): 0421".toList = "0421".toList ∧
    GLM.generateFromEvent ⟨4, 8⟩
        ⟨"E7".toList, [], "(Last 4 Digits): 0421".toList,
          ⟨2030, 1, 10, 0, 0, 0⟩, ⟨2030, 1, 12, 0, 0, 0⟩⟩ [] =
      ⟨"0421".toList, GLM.genMethodPhoneLast4, true⟩ := by
  refine ⟨?_, ?_, ?_, by decide, by decide⟩
  · unfold GLM.extractPhoneLast4
    rw [GLM.findLitSpDigits_append hw hd4 hd]
  · intro hr
    have hp1 : GLM.findLitSpDigits "(Last 4 Digits):".toList
        ("Last 4 Digits:".toList ++ (w ++ (d ++ rest))) = none := by
      apply GLM.findLitSpDigits_none_of_not_mem (c := '(')
      · decide
      · intro hmem
        rcases List.mem_append.mp hmem with h | h
        · exact absurd h (by decide)
        · exact GLM.not_mem_pattern_tail hw hd (by decide) (by decide) hr h
    unfold GLM.extractPhoneLast4
    rw [hp1, GLM.findLitSpDigits_append hw hd4 hd]
  · intro hr hrL
    have hp1 : GLM.findLitSpDigits "(Last 4 Digits):".toList
        ("last 4 digits:".toList ++ (w ++ (d ++ rest))) = none := by
      apply GLM.findLitSpDigits_none_of_not_mem (c := '(')
      · decide
      · intro hmem
        rcases List.mem_append.mp hmem with h | h
        · exact absurd h (by decide)
        · exact GLM.not_mem_pattern_tail hw hd (by decide) (by decide) hr h
    have hp2 : GLM.findLitSpDigits "Last 4 Digits:".toList
        ("last 4 digits:".toList ++ (w ++ (d ++ rest))) = none := by
      apply GLM.findLitSpDigits_none_of_not_mem (c := 'L')
      · decide
      · intro hmem
        rcases List.mem_append.mp hmem with h | h
        · exact absurd h (by decide)
        · exact GLM.not_mem_pattern_tail hw hd (by decide) (by decide) hrL h
    unfold GLM.extractPhoneLast4
    rw [hp1, hp2, GLM.findLitSpDigits_append hw hd4 hd]

/-- Claim C7 witness: the supported-casing theorem applied to a single
space, the digits 0421 and the trailing text " door", with every
hypothesis discharged. -/
theorem c7_phone_extraction_witness :
    ((∀ c ∈ " ".toList, GLM.isSpaceCh c = true) ∧
      ("0421".toList.length = 4) ∧ (∀ c ∈ "0421".toList, GLM.isDigitCh c = true)) ∧
    (GLM.extractPhoneLast4
        ("(Last 4 Digits):".toList ++ (" ".toList ++ ("0421".toList ++ " door".toList))) =
      "0421".toList ∧
    ('(' ∉ " door".toList →
      GLM.extractPhoneLast4
          ("Last 4 Digits:".toList ++ (" ".toList ++ ("0421".toList ++ " door".toList))) =
        "0421".toList) ∧
    ('(' ∉ " door".toList → 'L' ∉ " door".toList →
      GLM.extractPhoneLast4
          ("last 4 digits:".toList ++ (" ".toList ++ ("0421".toList ++ " door".toList))) =
        "0421".toList) ∧
    GLM.extractPhoneLast4 "(last 4 digits): 0421".toList = "0421".toList ∧
    GLM.generateFromEvent ⟨4, 8⟩
        ⟨"E7".toList, [], "(Last 4 Digits): 0421".toList,
          ⟨2030, 1, 10, 0, 0, 0⟩, ⟨2030, 1, 12, 0, 0, 0⟩⟩ [] =
      ⟨"0421".toList, GLM.genMethodPhoneLast4, true⟩) :=
  ⟨⟨by decide, by decide, by decide⟩,
    c7_phone_extraction_for_supported_casings " ".toList "0421".toList " door".toList
      (by decide) (by decide) (by decide)⟩


/-- Claim C8: `FindAlternativePIN` examines the candidates obtained by
adding 1..N to the integer interpretation of the original code
(N = maxAttempts, defaulting to 10 when non-positive), each reduced
modulo `10^len` and zero-padded back to the original length; it returns
the first candidate without a conflict over the window, and returns no
alternative exactly when all N candidates conflict. -/
theorem c8_find_alternative_pin (rows : List GLM.GuestPIN)
    (orig : List Char) (vF vU : GLM.DateTime) (maxAttempts : Int)
    (hd : ∀ c ∈ orig, GLM.isDigitCh c = true) (hl : 0 < orig.length) :
    (GLM.findAlternativePIN rows orig vF vU maxAttempts = none ↔
      ∀ k, 1 ≤ k → k ≤ (if maxAttempts ≤ 0 then 10 else maxAttempts).toNat →
        GLM.hasConflict rows
          (GLM.natPad orig.length
            ((GLM.goStrToInt orig + (k : Int)).toNat % GLM.pow10 orig.length))
          vF vU "" = true) ∧
    (∀ m, GLM.findAlternativePIN rows orig vF vU maxAttempts = some m →
      ∃ j, 1 ≤ j ∧ j ≤ (if maxAttempts ≤ 0 then 10 else maxAttempts).toNat ∧
        m = GLM.natPad orig.length
          ((GLM.goStrToInt orig + (j : Int)).toNat % GLM.pow10 orig.length) ∧
        GLM.hasConflict rows
          (GLM.natPad orig.length
            ((GLM.goStrToInt orig + (j : Int)).toNat % GLM.pow10 orig.length))
          vF vU "" = false ∧
        ∀ k, 1 ≤ k → k < j →
          GLM.hasConflict rows
            (GLM.natPad orig.length
              ((GLM.goStrToInt orig + (k : Int)).toNat % GLM.pow10 orig.length))
            vF vU "" = true) := by
  have hple : orig.length ≤ (if orig.length < 4 then 4 else orig.length) := by
    split <;> omega
  have hcand : ∀ i : Nat,
      GLM.altCandidate orig (if orig.length < 4 then 4 else orig.length) i =
        GLM.natPad orig.length
          ((GLM.goStrToInt orig + ((i + 1 : Nat) : Int)).toNat %
            GLM.pow10 orig.length) :=
    fun i => GLM.altCandidate_eq hd hl hple i
  have hdef : GLM.findAlternativePIN rows orig vF vU maxAttempts =
      GLM.findAltLoop rows vF vU orig (if orig.length < 4 then 4 else orig.length)
        0 ((if maxAttempts ≤ 0 then 10 else maxAttempts).toNat) := rfl
  constructor
  · rw [hdef, GLM.findAltLoop_none_iff]
    constructor
    · intro hall k hk1 hk2
      have h := hall (k - 1) (by omega) (by omega)
      rw [hcand (k - 1), show k - 1 + 1 = k from by omega] at h
      exact h
    · intro hall k _ hk2
      rw [hcand k]
      exact hall (k + 1) (by omega) (by omega)
  · intro m hm
    rw [hdef] at hm
    obtain ⟨j, hj0, hjN, hm3, hm4, hm5⟩ :=
      GLM.findAltLoop_some_spec rows vF vU orig
        (if orig.length < 4 then 4 else orig.length)
        ((if maxAttempts ≤ 0 then 10 else maxAttempts).toNat) 0 m hm
    refine ⟨j + 1, by omega, by omega, ?_, ?_, ?_⟩
    · rw [hm3, hcand j]
    · rw [← hcand j]
      exact hm4
    · intro k hk1 hk2
      have h := hm5 (k - 1) (by omega) (by omega)
      rw [hcand (k - 1), show k - 1 + 1 = k from by omega] at h
      exact h

/-- Claim C8 witness: the characterisation applied to an empty store,
the original code "2468" and maxAttempts 0 (defaulting to N = 10). -/
theorem c8_find_alternative_pin_witness :
    ((∀ c ∈ "2468".toList, GLM.isDigitCh c = true) ∧ 0 < "2468".toList.length) ∧
    ((GLM.findAlternativePIN [] "2468".toList ⟨2030, 1, 10, 15, 0, 0⟩
        ⟨2030, 1, 12, 11, 0, 0⟩ 0 = none ↔
      ∀ k, 1 ≤ k → k ≤ (if (0 : Int) ≤ 0 then (10 : Int) else 0).toNat →
        GLM.hasConflict []
          (GLM.natPad "2468".toList.length
            ((GLM.goStrToInt "2468".toList + (k : Int)).toNat %
              GLM.pow10 "2468".toList.length))
          ⟨2030, 1, 10, 15, 0, 0⟩ ⟨2030, 1, 12, 11, 0, 0⟩ "" = true) ∧
    (∀ m, GLM.findAlternativePIN [] "2468".toList ⟨2030, 1, 10, 15, 0, 0⟩
        ⟨2030, 1, 12, 11, 0, 0⟩ 0 = some m →
      ∃ j, 1 ≤ j ∧ j ≤ (if (0 : Int) ≤ 0 then (10 : Int) else 0).toNat ∧
        m = GLM.natPad "2468".toList.length
          ((GLM.goStrToInt "2468".toList + (j : Int)).toNat %
            GLM.pow10 "2468".toList.length) ∧
        GLM.hasConflict []
          (GLM.natPad "2468".toList.length
            ((GLM.goStrToInt "2468".toList + (j : Int)).toNat %
              GLM.pow10 "2468".toList.length))
          ⟨2030, 1, 10, 15, 0, 0⟩ ⟨2030, 1, 12, 11, 0, 0⟩ "" = false ∧
        ∀ k, 1 ≤ k → k < j →
          GLM.hasConflict []
            (GLM.natPad "2468".toList.length
              ((GLM.goStrToInt "2468".toList + (k : Int)).toNat %
                GLM.pow10 "2468".toList.length))
            ⟨2030, 1, 10, 15, 0, 0⟩ ⟨2030, 1, 12, 11, 0, 0⟩ "" = true)) :=
  ⟨⟨by decide, by decide⟩,
    c8_find_alternative_pin [] "2468".toList ⟨2030, 1, 10, 15, 0, 0⟩
      ⟨2030, 1, 12, 11, 0, 0⟩ 0 (by decide) (by decide)⟩
